import Mathlib

/-!
Verification development for the time-series plot data pipeline of the
Plot panel (block-based history accumulation, streaming reducer,
path-to-topic indexing, view-window policy, merge).

The TypeScript source is shallowly embedded:
* JS objects / `Map`s (string-keyed, insertion-ordered) are association
  lists `List (String × α)`; setting an existing key keeps its position,
  setting a new key appends at the end, exactly as in JS.
* In-place mutation of the accumulated state is value-level state
  threading; "returns the very same object" is modelled by the reducer's
  `changed` flag (the code allocates a shallow copy `{...accumulated}`
  only on the `changed` branch and otherwise returns its argument).
* `Time` is the rostime `{sec, nsec}` pair; `toSec` is exact rational
  arithmetic standing in for the JS float computation.
* External collaborators (the message-path evaluator
  `cachedGetMessagePathDataItems`, the per-block decoder
  `decodeMessagePathsForMessagesByTopic`, `getTimestampForMessage`,
  `parseRosPath`, the numeric coercion `+s` of a width string) are pure
  function parameters, as the spec treats them.
-/

/-- Abstract message payload (only passed to external evaluators). -/
abbrev Msg := Nat

/-- Abstract handle of an immutable preloaded block. -/
abbrev Block := Nat

/-- Abstract extracted value (`MessagePathDataItem[]` in the source). -/
abbrev Value := Nat

/-- rostime `Time`: seconds and nanoseconds. -/
structure Time where
  sec : Int
  nsec : Int
deriving DecidableEq, Repr

/-- `toSec` from `@foxglove/rostime`: seconds as an exact rational
(the source computes a JS float `sec + nsec * 1e-9`). -/
def toSec (t : Time) : ℚ := (t.sec : ℚ) + (t.nsec : ℚ) / 1000000000

/-- `subtract` from `@foxglove/rostime`: componentwise difference (the
source normalizes `nsec` into `[0, 1e9)`, which leaves `toSec` of the
result unchanged; only `toSec` of differences is consumed here). -/
def subtractTimes (t s : Time) : Time := ⟨t.sec - s.sec, t.nsec - s.nsec⟩

/-- One sample kept for plotting (source `PlotDataItem`). -/
structure PlotDataItem where
  queriedData : Value
  receiveTime : Time
  headerStamp : Option Time
deriving DecidableEq, Repr

/-- A live message event (source `MessageEvent<unknown>`). -/
structure MessageEvent where
  topic : String
  receiveTime : Time
  message : Msg
deriving DecidableEq, Repr

/-- An entry of the evaluator result for one block
(source `{ messageEvent, queriedData }`). -/
structure MessageAndData where
  messageEvent : MessageEvent
  queriedData : Value
deriving DecidableEq, Repr

/-- Source `PlotDataByPath`: per path, a list of contiguous ranges of
samples, as an insertion-ordered string-keyed object. -/
abbrev PlotDataByPath := List (String × List (List PlotDataItem))

/-- JS object / `Map` read: first (only) entry with the given key. -/
def getKey : List (String × α) → String → Option α
  | [], _ => none
  | e :: t, k => if e.1 = k then some e.2 else getKey t k

/-- Whether the object already has an entry for the key. -/
def hasKey : List (String × α) → String → Bool
  | [], _ => false
  | e :: t, k => e.1 = k || hasKey t k

/-- JS object / `Map` write: overwrite in place when the key exists
(keeping its position), otherwise append the new entry at the end. -/
def setKey (m : List (String × α)) (k : String) (v : α) : List (String × α) :=
  if hasKey m k then m.map (fun e => if e.1 = k then (k, v) else e)
  else m ++ [(k, v)]

/-- The per-block decoder output restricted to what
`getPlotDataByPath` consumes (source `MessageDataItemsByPath`). -/
abbrev MessageDataItemsByPath := List (String × List MessageAndData)

/-- The sample `getPlotDataByPath` builds from one evaluator entry:
queried data, receive time, and the header stamp extracted by the
external `getTimestampForMessage`. -/
def mkBlockItem (getTimestampForMessage : Msg → Option Time)
    (messageAndData : MessageAndData) : PlotDataItem :=
  { queriedData := messageAndData.queriedData
    receiveTime := messageAndData.messageEvent.receiveTime
    headerStamp := getTimestampForMessage messageAndData.messageEvent.message }

/-- Source `getPlotDataByPath`: keep only queried data, receive time and
header stamp; each path maps to exactly one range of items. -/
def getPlotDataByPath (getTimestampForMessage : Msg → Option Time)
    (itemsByPath : MessageDataItemsByPath) : PlotDataByPath :=
  itemsByPath.foldl
    (fun ret e => setKey ret e.1 [e.2.map (mkBlockItem getTimestampForMessage)])
    []

/-- Source `getMessagePathItemsForBlock`: the weak-memoized, frozen
composition of `getPlotDataByPath` with the external per-block decoder
(memoization is keyed on block identity and is invisible to values). -/
def getMessagePathItemsForBlock (getTimestampForMessage : Msg → Option Time)
    (decodeMessagePathsForMessagesByTopic : Block → MessageDataItemsByPath)
    (block : Block) : PlotDataByPath :=
  getPlotDataByPath getTimestampForMessage (decodeMessagePathsForMessagesByTopic block)

/-- Loop state of `getBlockItemsByPath`: the result object `ret` and the
`lastBlockIndexForPath` record. -/
structure BlockAccState where
  ret : PlotDataByPath
  lastBlockIndexForPath : List (String × Int)
deriving Repr

/-- JS `existingItems[existingItems.length - 1].push(...items)`: extend
the last open range in place; when `currentRange` is `undefined` (no
range yet) nothing happens, as in the source's `if (currentRange && ...)`. -/
def extendLast (ls : List (List PlotDataItem)) (ps : List PlotDataItem) :
    List (List PlotDataItem) :=
  match ls.getLast? with
  | none => ls
  | some last => ls.dropLast ++ [last ++ ps]

/-- One iteration of the inner `Object.entries(...).forEach` loop of
`getBlockItemsByPath`, for block index `i` and one `(path, ranges)`
entry of the block's decoded data. -/
def processBlockEntry (i : Int) (s : BlockAccState)
    (entry : String × List (List PlotDataItem)) : BlockAccState :=
  let path := entry.1
  let existingItems := (getKey s.ret path).getD []
  let pathItems := entry.2.head?
  let existingItems' :=
    if getKey s.lastBlockIndexForPath path = some (i - 1) then
      match pathItems with
      | some ps => extendLast existingItems ps
      | none => existingItems
    else
      match pathItems with
      | some ps => existingItems ++ [ps]
      | none => existingItems
  { ret := setKey s.ret path existingItems'
    lastBlockIndexForPath := setKey s.lastBlockIndexForPath path i }

/-- One iteration of the outer `blocks.forEach` loop of
`getBlockItemsByPath`. -/
def processBlock (getTimestampForMessage : Msg → Option Time)
    (decodeMessagePathsForMessagesByTopic : Block → MessageDataItemsByPath)
    (s : BlockAccState) (i : Int) (block : Block) : BlockAccState :=
  (getMessagePathItemsForBlock getTimestampForMessage
      decodeMessagePathsForMessagesByTopic block).foldl (processBlockEntry i) s

/-- Source `getBlockItemsByPath`: walk the blocks in index order,
appending to a path's last open range exactly when the block index is
one greater than the last index that contributed to the path, otherwise
starting a new range from a copy of the block's samples. -/
def getBlockItemsByPath (getTimestampForMessage : Msg → Option Time)
    (decodeMessagePathsForMessagesByTopic : Block → MessageDataItemsByPath)
    (blocks : List Block) : PlotDataByPath :=
  (blocks.foldl
      (fun (p : BlockAccState × Int) b =>
        (processBlock getTimestampForMessage decodeMessagePathsForMessagesByTopic
            p.1 p.2 b,
          p.2 + 1))
      (⟨[], []⟩, 0)).1.ret

/-- Source `plotDataForBlocks`: in single-current-message mode
(`xAxisVal` is `index` or `currentCustom`) block accumulation is skipped
and the empty mapping is returned. -/
def plotDataForBlocks (showSingleCurrentMessage : Bool)
    (getTimestampForMessage : Msg → Option Time)
    (decodeMessagePathsForMessagesByTopic : Block → MessageDataItemsByPath)
    (blocks : List Block) : PlotDataByPath :=
  if showSingleCurrentMessage then []
  else getBlockItemsByPath getTimestampForMessage
    decodeMessagePathsForMessagesByTopic blocks

/-- Source `ChartDefaultView`: either a trailing window of a given width
or a fixed x-range. -/
inductive ChartDefaultView where
  | following (width : ℚ)
  | fixed (minXValue maxXValue : ℚ)
deriving DecidableEq, Repr

/-- The captured environment of the `addMessages` callback: the
topic-to-paths index, the block-covered paths, the external evaluators,
and the configuration flags it closes over. -/
structure StreamCtx where
  topicToPaths : List (String × List String)
  blockPathsMemo : List String
  cachedGetMessagePathDataItems : String → MessageEvent → Option Value
  getTimestampForMessage : Msg → Option Time
  showSingleCurrentMessage : Bool
  followingView : Option ChartDefaultView

/-- The `plotDataItem` built for one event and path in `addMessages`. -/
def mkPlotDataItem (ctx : StreamCtx) (dataItem : Value) (msgEvent : MessageEvent) :
    PlotDataItem :=
  { queriedData := dataItem
    receiveTime := msgEvent.receiveTime
    headerStamp := ctx.getTimestampForMessage msgEvent.message }

/-- JS `a[0] = x`: replace index 0 (appending when the array is empty). -/
def setHead (l : List (List PlotDataItem)) (x : List PlotDataItem) :
    List (List PlotDataItem) :=
  match l with
  | [] => [x]
  | _ :: t => x :: t

/-- Body of the inner `for (const path of paths)` loop of `addMessages`,
threading the accumulated object and the `changed` flag. -/
def applyEventPath (ctx : StreamCtx) (lastEventTime : Option Time)
    (msgEvent : MessageEvent) (st : PlotDataByPath × Bool) (path : String) :
    PlotDataByPath × Bool :=
  if ctx.blockPathsMemo.contains path then st
  else
    match ctx.cachedGetMessagePathDataItems path msgEvent with
    | none => st
    | some dataItem =>
      if ctx.showSingleCurrentMessage then
        (setKey st.1 path [[mkPlotDataItem ctx dataItem msgEvent]], true)
      else
        match lastEventTime, ctx.followingView with
        | some lastTime, some (ChartDefaultView.following width) =>
          (setKey st.1 path
            (setHead ((getKey st.1 path).getD [[]])
              ((((getKey st.1 path).getD [[]]).headD []
                  ++ [mkPlotDataItem ctx dataItem msgEvent]).filter
                (fun item => !(toSec item.receiveTime < toSec lastTime - width)))),
            true)
        | _, _ =>
          (setKey st.1 path
            (setHead ((getKey st.1 path).getD [[]])
              (((getKey st.1 path).getD [[]]).headD []
                ++ [mkPlotDataItem ctx dataItem msgEvent])),
            true)

/-- Body of the outer `for (const msgEvent of msgEvents)` loop of
`addMessages`: dispatch the event to the paths of its topic. -/
def applyEvent (ctx : StreamCtx) (lastEventTime : Option Time)
    (st : PlotDataByPath × Bool) (msgEvent : MessageEvent) : PlotDataByPath × Bool :=
  match getKey ctx.topicToPaths msgEvent.topic with
  | none => st
  | some paths => paths.foldl (applyEventPath ctx lastEventTime msgEvent) st

/-- The state of `accumulated` and the `changed` flag just before
`addMessages` returns. -/
def addMessagesCore (ctx : StreamCtx) (accumulated : PlotDataByPath)
    (msgEvents : List MessageEvent) : PlotDataByPath × Bool :=
  msgEvents.foldl
    (applyEvent ctx ((msgEvents.getLast?).map MessageEvent.receiveTime))
    (accumulated, false)

/-- Source `addMessages`: returns the accumulated object itself when no
change occurred and the (shallow-copied) updated object otherwise; the
allocation distinction is carried by the `changed` flag of
`addMessagesCore`. -/
def addMessages (ctx : StreamCtx) (accumulated : PlotDataByPath)
    (msgEvents : List MessageEvent) : PlotDataByPath :=
  let res := addMessagesCore ctx accumulated msgEvents
  if res.2 then res.1 else accumulated

/-- Source `restore`: keep only the entries of the previous accumulated
state whose path is still in `allPaths`; `undefined` restores to the
empty mapping. -/
def restore (allPaths : List String) (previous : Option PlotDataByPath) :
    PlotDataByPath :=
  match previous with
  | none => []
  | some prev =>
    allPaths.foldl
      (fun updated path =>
        match getKey prev path with
        | some plotData => setKey updated path plotData
        | none => updated)
      []

/-- Source `topicToPaths`: for each parseable path, append it to the
list kept under its topic name; unparseable paths are skipped.
`parseRosPath` is the external parser, abstracted to the topic name it
yields. -/
def topicToPaths (parseRosPath : String → Option String)
    (allPaths : List String) : List (String × List String) :=
  allPaths.foldl
    (fun out path =>
      match parseRosPath path with
      | none => out
      | some topicName => setKey out topicName ((getKey out topicName).getD [] ++ [path]))
    []

/-- JS `{ ...a, ...b }`: entries of `a` then entries of `b`, with `b`
overriding shared keys in place (source `allPlotData`). -/
def spreadMerge (a b : List (String × α)) : List (String × α) :=
  b.foldl (fun m e => setKey m e.1 e.2) a

/-- The x-axis mode (source `PlotXAxisVal`). -/
inductive XAxisVal where
  | timestamp
  | index
  | currentCustom
  | custom
deriving DecidableEq, Repr

/-- Source `timeSincePreloadedStart`: seconds between a time and the
start time, only in `timestamp` mode when both are known. -/
def timeSincePreloadedStart (xAxisVal : XAxisVal) (startTime : Option Time)
    (time : Option Time) : Option ℚ :=
  if xAxisVal = XAxisVal.timestamp then
    match time, startTime with
    | some t, some s => some (toSec (subtractTimes t s))
    | _, _ => none
  else none

/-- Source `followingView`: a following window exactly when the
configured width string is present and its JS numeric value is positive.
`plus` is the JS unary `+` coercion, `none` standing for `NaN` (any
comparison against `NaN` is false). -/
def followingView (plus : String → Option ℚ) (followingViewWidth : Option String) :
    Option ChartDefaultView :=
  match followingViewWidth with
  | none => none
  | some w =>
    match plus w with
    | none => none
    | some x => if 0 < x then some (ChartDefaultView.following x) else none

/-- Source `fixedView`: the fixed `[0, endTimeSinceStart]` view, only in
`timestamp` mode when the start time and the end-time offset are known. -/
def fixedView (xAxisVal : XAxisVal) (startTime endTime : Option Time) :
    Option ChartDefaultView :=
  if xAxisVal = XAxisVal.timestamp ∧ startTime.isSome
      ∧ (timeSincePreloadedStart xAxisVal startTime endTime).isSome then
    some (ChartDefaultView.fixed 0
      ((timeSincePreloadedStart xAxisVal startTime endTime).getD 0))
  else none

/-- Source `defaultView`: the following view when available, else the
fixed view, else `undefined`. -/
def defaultView (plus : String → Option ℚ) (followingViewWidth : Option String)
    (xAxisVal : XAxisVal) (startTime endTime : Option Time) :
    Option ChartDefaultView :=
  match followingView plus followingViewWidth with
  | some v => some v
  | none => fixedView xAxisVal startTime endTime

/-- A path is skipped by `addMessages` for an event when it is
block-covered or the evaluator extracts nothing. -/
def pathSkipped (ctx : StreamCtx) (p : String) (e : MessageEvent) : Prop :=
  ctx.blockPathsMemo.contains p = true ∨ ctx.cachedGetMessagePathDataItems p e = none

/-- Whether an event reaches the sample-building code of `addMessages`
for a path: its topic's path list contains the path, the path is not
block-covered, and extraction succeeds. -/
def matchesPath (ctx : StreamCtx) (p : String) (e : MessageEvent) : Bool :=
  (match getKey ctx.topicToPaths e.topic with
    | none => false
    | some paths => paths.contains p)
  && !(ctx.blockPathsMemo.contains p)
  && (ctx.cachedGetMessagePathDataItems p e).isSome

/-- The sample `addMessages` builds for a path and event (meaningful
when extraction succeeds). -/
def extractedItem (ctx : StreamCtx) (p : String) (e : MessageEvent) : PlotDataItem :=
  mkPlotDataItem ctx ((ctx.cachedGetMessagePathDataItems p e).getD 0) e

/-- An event causes no change at all: every path listed for its topic is
skipped (block-covered or extraction yields nothing). -/
def eventSkipped (ctx : StreamCtx) (e : MessageEvent) : Prop :=
  ∀ l, getKey ctx.topicToPaths e.topic = some l → ∀ q ∈ l, pathSkipped ctx q e

/-- A sample with the given queried value and an integral receive time. -/
def itemAt (v : Value) (tsec : Int) : PlotDataItem := ⟨v, ⟨tsec, 0⟩, none⟩

/-- The trailing live range of the spec's following-window example:
samples at t = 0, 1, …, 10. -/
def rangeW5 : List PlotDataItem :=
  [itemAt 0 0, itemAt 1 1, itemAt 2 2, itemAt 3 3, itemAt 4 4, itemAt 5 5,
    itemAt 6 6, itemAt 7 7, itemAt 8 8, itemAt 9 9, itemAt 10 10]

/-- Reducer context of the following-window example: one topic `T` with
one path `p`, no block coverage, normal mode, following view of width 5,
evaluator returning the message payload. -/
def ctxW5 : StreamCtx :=
  { topicToPaths := [("T", ["p"])]
    blockPathsMemo := []
    cachedGetMessagePathDataItems := fun _ e => some e.message
    getTimestampForMessage := fun _ => none
    showSingleCurrentMessage := false
    followingView := some (ChartDefaultView.following 5) }

/-- Accumulated state of the following-window example. -/
def accW5 : PlotDataByPath := [("p", [rangeW5])]

/-- Single-mode context whose evaluator fails on the zero payload,
exercising the extraction-failure edge case. -/
def ctxFail : StreamCtx :=
  { topicToPaths := [("T", ["p"])]
    blockPathsMemo := []
    cachedGetMessagePathDataItems := fun _ e =>
      if e.message = 0 then none else some e.message
    getTimestampForMessage := fun _ => none
    showSingleCurrentMessage := true
    followingView := none }

/-- The JS unary-plus coercion used in the C7 witness: only the string
"5" denotes a number. -/
def plusEx : String → Option ℚ := fun s => if s = "5" then some 5 else none

/-- The path parser used in the C8 witness: "bad" fails to parse, any
other path's topic is its first character. -/
def parseEx : String → Option String := fun s =>
  if s = "bad" then none else some (s.take 1)

theorem getKey_nil (k : String) : getKey ([] : List (String × α)) k = none := rfl

theorem getKey_cons (e : String × α) (m : List (String × α)) (k : String) :
    getKey (e :: m) k = if e.1 = k then some e.2 else getKey m k := rfl

theorem getKey_append (m l : List (String × α)) (k : String) :
    getKey (m ++ l) k = (getKey m k).or (getKey l k) := by
  induction m with
  | nil => simp [getKey]
  | cons e t ih =>
    simp only [List.cons_append, getKey_cons]
    by_cases he : e.1 = k <;> simp [he, ih]

theorem getKey_none_of_not_hasKey (m : List (String × α)) (k : String)
    (h : ¬ hasKey m k) : getKey m k = none := by
  induction m with
  | nil => rfl
  | cons e t ih =>
    simp only [hasKey, Bool.or_eq_true, not_or, decide_eq_true_eq] at h
    simp only [getKey_cons, h.1, if_false]
    exact ih (by simpa using h.2)

theorem getKey_map_overwrite (m : List (String × α)) (k : String) (v : α) :
    getKey (m.map (fun e => if e.1 = k then (k, v) else e)) k
      = if hasKey m k then some v else none := by
  induction m with
  | nil => rfl
  | cons e t ih =>
    by_cases he : e.1 = k
    · simp [getKey_cons, he, hasKey]
    · simp only [List.map_cons, if_neg he, getKey_cons, he, if_false, hasKey,
        decide_eq_true_eq]
      simpa [he] using ih

theorem getKey_map_overwrite_ne (m : List (String × α)) (k k' : String) (v : α)
    (h : k' ≠ k) :
    getKey (m.map (fun e => if e.1 = k then (k, v) else e)) k' = getKey m k' := by
  induction m with
  | nil => rfl
  | cons e t ih =>
    by_cases he : e.1 = k
    · have hkk : k ≠ k' := fun hkk => h hkk.symm
      have hek : e.1 ≠ k' := he ▸ hkk
      simp [getKey_cons, he, hkk, hek, ih]
    · simp only [List.map_cons, if_neg he, getKey_cons]
      by_cases he' : e.1 = k' <;> simp [he', ih]

theorem getKey_setKey_self (m : List (String × α)) (k : String) (v : α) :
    getKey (setKey m k v) k = some v := by
  unfold setKey
  by_cases h : hasKey m k
  · simp [h, getKey_map_overwrite]
  · simp [h, getKey_append, getKey_none_of_not_hasKey m k h, getKey_cons]

theorem getKey_setKey_ne (m : List (String × α)) (k k' : String) (v : α) (h : k' ≠ k) :
    getKey (setKey m k v) k' = getKey m k' := by
  unfold setKey
  by_cases hm : hasKey m k
  · simp [hm, getKey_map_overwrite_ne m k k' v h]
  · have hkk : k ≠ k' := fun hkk => h hkk.symm
    simp [hm, getKey_append, getKey_cons, hkk, getKey, Option.or]
    cases getKey m k' <;> rfl

theorem applyEventPath_skip (ctx : StreamCtx) (lt : Option Time) (e : MessageEvent)
    (st : PlotDataByPath × Bool) (p : String) (h : pathSkipped ctx p e) :
    applyEventPath ctx lt e st p = st := by
  unfold applyEventPath
  rcases h with h | h
  · rw [if_pos h]
  · by_cases hb : ctx.blockPathsMemo.contains p = true
    · rw [if_pos hb]
    · rw [if_neg hb]
      simp only [h]

theorem applyEventPath_shape (ctx : StreamCtx) (lt : Option Time) (e : MessageEvent)
    (st : PlotDataByPath × Bool) (p : String) :
    applyEventPath ctx lt e st p = st ∨
      ∃ pd, applyEventPath ctx lt e st p = (setKey st.1 p pd, true) := by
  unfold applyEventPath
  by_cases hb : ctx.blockPathsMemo.contains p = true
  · rw [if_pos hb]
    exact Or.inl rfl
  · rw [if_neg hb]
    cases hex : ctx.cachedGetMessagePathDataItems p e with
    | none => exact Or.inl rfl
    | some v =>
      dsimp only
      by_cases hs : ctx.showSingleCurrentMessage = true
      · rw [if_pos hs]
        exact Or.inr ⟨_, rfl⟩
      · rw [if_neg hs]
        cases lt with
        | none => exact Or.inr ⟨_, rfl⟩
        | some lastTime =>
          cases ctx.followingView with
          | none => exact Or.inr ⟨_, rfl⟩
          | some fv =>
            cases fv with
            | following width => exact Or.inr ⟨_, rfl⟩
            | fixed a b => exact Or.inr ⟨_, rfl⟩

theorem applyEventPath_snd_true_of_not_skip (ctx : StreamCtx) (lt : Option Time)
    (e : MessageEvent) (st : PlotDataByPath × Bool) (p : String)
    (h : ¬ pathSkipped ctx p e) :
    (applyEventPath ctx lt e st p).2 = true := by
  rw [pathSkipped] at h
  push_neg at h
  obtain ⟨hb, hex⟩ := h
  obtain ⟨v, hv⟩ := Option.ne_none_iff_exists'.mp hex
  unfold applyEventPath
  rw [if_neg hb]
  simp only [hv]
  by_cases hs : ctx.showSingleCurrentMessage = true
  · rw [if_pos hs]
  · rw [if_neg hs]
    cases lt with
    | none => rfl
    | some lastTime =>
      cases ctx.followingView with
      | none => rfl
      | some fv =>
        cases fv with
        | following width => rfl
        | fixed a b => rfl

theorem applyEventPath_snd_false_iff (ctx : StreamCtx) (lt : Option Time)
    (e : MessageEvent) (st : PlotDataByPath × Bool) (p : String) :
    (applyEventPath ctx lt e st p).2 = false ↔ st.2 = false ∧ pathSkipped ctx p e := by
  constructor
  · intro hf
    by_cases hsk : pathSkipped ctx p e
    · rw [applyEventPath_skip ctx lt e st p hsk] at hf
      exact ⟨hf, hsk⟩
    · rw [applyEventPath_snd_true_of_not_skip ctx lt e st p hsk] at hf
      cases hf
  · rintro ⟨h1, h2⟩
    rw [applyEventPath_skip ctx lt e st p h2]
    exact h1

theorem applyEventPath_of_snd_false (ctx : StreamCtx) (lt : Option Time)
    (e : MessageEvent) (st : PlotDataByPath × Bool) (p : String)
    (h : (applyEventPath ctx lt e st p).2 = false) :
    applyEventPath ctx lt e st p = st := by
  obtain ⟨-, hskip⟩ := (applyEventPath_snd_false_iff ctx lt e st p).mp h
  exact applyEventPath_skip ctx lt e st p hskip

theorem applyEventPath_snd_mono (ctx : StreamCtx) (lt : Option Time)
    (e : MessageEvent) (st : PlotDataByPath × Bool) (p : String) (h : st.2 = true) :
    (applyEventPath ctx lt e st p).2 = true := by
  rcases applyEventPath_shape ctx lt e st p with hsh | ⟨pd, hsh⟩ <;> rw [hsh]
  exact h

theorem applyEventPath_getKey_ne (ctx : StreamCtx) (lt : Option Time)
    (e : MessageEvent) (st : PlotDataByPath × Bool) (q p : String) (h : q ≠ p) :
    getKey (applyEventPath ctx lt e st q).1 p = getKey st.1 p := by
  have hpq : p ≠ q := fun hh => h hh.symm
  rcases applyEventPath_shape ctx lt e st q with hsh | ⟨pd, hsh⟩ <;> rw [hsh]
  exact getKey_setKey_ne st.1 q p pd hpq

theorem foldPaths_snd_false_iff (ctx : StreamCtx) (lt : Option Time)
    (e : MessageEvent) (l : List String) (st : PlotDataByPath × Bool) :
    (l.foldl (applyEventPath ctx lt e) st).2 = false ↔
      st.2 = false ∧ ∀ q ∈ l, pathSkipped ctx q e := by
  induction l generalizing st with
  | nil => simp
  | cons q t ih =>
    simp only [List.foldl_cons, ih, applyEventPath_snd_false_iff, List.mem_cons]
    constructor
    · rintro ⟨⟨h1, h2⟩, h3⟩
      exact ⟨h1, fun r hr => hr.elim (fun hq => hq ▸ h2) (h3 r)⟩
    · rintro ⟨h1, h2⟩
      exact ⟨⟨h1, h2 q (Or.inl rfl)⟩, fun r hr => h2 r (Or.inr hr)⟩

theorem foldPaths_of_snd_false (ctx : StreamCtx) (lt : Option Time)
    (e : MessageEvent) (l : List String) (st : PlotDataByPath × Bool)
    (h : (l.foldl (applyEventPath ctx lt e) st).2 = false) :
    l.foldl (applyEventPath ctx lt e) st = st := by
  induction l generalizing st with
  | nil => rfl
  | cons q t ih =>
    simp only [List.foldl_cons] at h ⊢
    have ht := ih (applyEventPath ctx lt e st q) h
    rw [ht] at h ⊢
    rw [applyEventPath_of_snd_false ctx lt e st q h]

theorem foldPaths_getKey_preserve (ctx : StreamCtx) (lt : Option Time)
    (e : MessageEvent) (l : List String) (st : PlotDataByPath × Bool) (p : String)
    (h : p ∈ l → pathSkipped ctx p e) :
    getKey ((l.foldl (applyEventPath ctx lt e) st).1) p = getKey st.1 p := by
  induction l generalizing st with
  | nil => rfl
  | cons q t ih =>
    simp only [List.foldl_cons]
    rw [ih _ (fun hp => h (List.mem_cons_of_mem q hp))]
    by_cases hq : q = p
    · subst hq
      rw [applyEventPath_skip ctx lt e st q (h (List.mem_cons_self q t))]
    · exact applyEventPath_getKey_ne ctx lt e st q p hq

theorem foldPaths_snd_mono (ctx : StreamCtx) (lt : Option Time)
    (e : MessageEvent) (l : List String) (st : PlotDataByPath × Bool)
    (h : st.2 = true) :
    (l.foldl (applyEventPath ctx lt e) st).2 = true := by
  induction l generalizing st with
  | nil => exact h
  | cons q t ih =>
    exact ih _ (applyEventPath_snd_mono ctx lt e st q h)

theorem applyEvent_snd_false_iff (ctx : StreamCtx) (lt : Option Time)
    (st : PlotDataByPath × Bool) (e : MessageEvent) :
    (applyEvent ctx lt st e).2 = false ↔ st.2 = false ∧ eventSkipped ctx e := by
  unfold applyEvent eventSkipped
  cases hl : getKey ctx.topicToPaths e.topic with
  | none => simp [hl]
  | some l =>
    rw [foldPaths_snd_false_iff]
    constructor
    · rintro ⟨h1, h2⟩
      exact ⟨h1, fun l' hl' => by injection hl' with h; exact h ▸ h2⟩
    · rintro ⟨h1, h2⟩
      exact ⟨h1, h2 l rfl⟩

theorem applyEvent_of_snd_false (ctx : StreamCtx) (lt : Option Time)
    (st : PlotDataByPath × Bool) (e : MessageEvent)
    (h : (applyEvent ctx lt st e).2 = false) :
    applyEvent ctx lt st e = st := by
  unfold applyEvent at h ⊢
  cases hl : getKey ctx.topicToPaths e.topic with
  | none => rfl
  | some l =>
    rw [hl] at h
    exact foldPaths_of_snd_false ctx lt e l st h

theorem applyEvent_getKey_preserve (ctx : StreamCtx) (lt : Option Time)
    (st : PlotDataByPath × Bool) (e : MessageEvent) (p : String)
    (h : ∀ l, getKey ctx.topicToPaths e.topic = some l → p ∈ l → pathSkipped ctx p e) :
    getKey (applyEvent ctx lt st e).1 p = getKey st.1 p := by
  unfold applyEvent
  cases hl : getKey ctx.topicToPaths e.topic with
  | none => rfl
  | some l => exact foldPaths_getKey_preserve ctx lt e l st p (h l hl)

theorem applyEvent_snd_mono (ctx : StreamCtx) (lt : Option Time)
    (st : PlotDataByPath × Bool) (e : MessageEvent) (h : st.2 = true) :
    (applyEvent ctx lt st e).2 = true := by
  unfold applyEvent
  cases hl : getKey ctx.topicToPaths e.topic with
  | none => exact h
  | some l => exact foldPaths_snd_mono ctx lt e l st h

theorem foldEvents_snd_false_iff (ctx : StreamCtx) (lt : Option Time)
    (evs : List MessageEvent) (st : PlotDataByPath × Bool) :
    (evs.foldl (applyEvent ctx lt) st).2 = false ↔
      st.2 = false ∧ ∀ e ∈ evs, eventSkipped ctx e := by
  induction evs generalizing st with
  | nil => simp
  | cons e t ih =>
    simp only [List.foldl_cons, ih, applyEvent_snd_false_iff, List.mem_cons]
    constructor
    · rintro ⟨⟨h1, h2⟩, h3⟩
      exact ⟨h1, fun r hr => hr.elim (fun hq => hq ▸ h2) (h3 r)⟩
    · rintro ⟨h1, h2⟩
      exact ⟨⟨h1, h2 e (Or.inl rfl)⟩, fun r hr => h2 r (Or.inr hr)⟩

theorem foldEvents_of_snd_false (ctx : StreamCtx) (lt : Option Time)
    (evs : List MessageEvent) (st : PlotDataByPath × Bool)
    (h : (evs.foldl (applyEvent ctx lt) st).2 = false) :
    evs.foldl (applyEvent ctx lt) st = st := by
  induction evs generalizing st with
  | nil => rfl
  | cons e t ih =>
    simp only [List.foldl_cons] at h ⊢
    have ht := ih (applyEvent ctx lt st e) h
    rw [ht] at h ⊢
    rw [applyEvent_of_snd_false ctx lt st e h]

theorem foldEvents_getKey_preserve (ctx : StreamCtx) (lt : Option Time)
    (evs : List MessageEvent) (st : PlotDataByPath × Bool) (p : String)
    (h : ∀ e ∈ evs, ∀ l, getKey ctx.topicToPaths e.topic = some l → p ∈ l →
      pathSkipped ctx p e) :
    getKey ((evs.foldl (applyEvent ctx lt) st).1) p = getKey st.1 p := by
  induction evs generalizing st with
  | nil => rfl
  | cons e t ih =>
    simp only [List.foldl_cons]
    rw [ih _ (fun e' he' => h e' (List.mem_cons_of_mem e he'))]
    exact applyEvent_getKey_preserve ctx lt st e p (h e (List.mem_cons_self e t))

theorem addMessagesCore_snd_false_iff (ctx : StreamCtx) (acc : PlotDataByPath)
    (evs : List MessageEvent) :
    (addMessagesCore ctx acc evs).2 = false ↔ ∀ e ∈ evs, eventSkipped ctx e := by
  unfold addMessagesCore
  rw [foldEvents_snd_false_iff]
  simp

theorem addMessagesCore_fst_of_snd_false (ctx : StreamCtx) (acc : PlotDataByPath)
    (evs : List MessageEvent) (h : (addMessagesCore ctx acc evs).2 = false) :
    (addMessagesCore ctx acc evs).1 = acc := by
  unfold addMessagesCore at h ⊢
  rw [foldEvents_of_snd_false ctx _ evs (acc, false) h]

theorem addMessages_getKey_eq_core (ctx : StreamCtx) (acc : PlotDataByPath)
    (evs : List MessageEvent) (p : String) :
    getKey (addMessages ctx acc evs) p = getKey (addMessagesCore ctx acc evs).1 p := by
  cases hch : (addMessagesCore ctx acc evs).2 with
  | false =>
    simp only [addMessages, hch, Bool.false_eq_true, if_false]
    rw [addMessagesCore_fst_of_snd_false ctx acc evs hch]
  | true =>
    simp only [addMessages, hch, if_true]

theorem applyEventPath_single_eq (ctx : StreamCtx) (lt : Option Time)
    (e : MessageEvent) (st : PlotDataByPath × Bool) (p : String) (v : Value)
    (hs : ctx.showSingleCurrentMessage = true)
    (hb : ¬ ctx.blockPathsMemo.contains p = true)
    (hex : ctx.cachedGetMessagePathDataItems p e = some v) :
    applyEventPath ctx lt e st p = (setKey st.1 p [[mkPlotDataItem ctx v e]], true) := by
  unfold applyEventPath
  rw [if_neg hb]
  simp only [hex]
  rw [if_pos hs]

theorem foldPaths_single_getKey (ctx : StreamCtx) (lt : Option Time)
    (e : MessageEvent) (l : List String) (st : PlotDataByPath × Bool) (p : String)
    (v : Value) (hs : ctx.showSingleCurrentMessage = true)
    (hb : ¬ ctx.blockPathsMemo.contains p = true)
    (hex : ctx.cachedGetMessagePathDataItems p e = some v) (hc : p ∈ l) :
    getKey ((l.foldl (applyEventPath ctx lt e) st).1) p
      = some [[mkPlotDataItem ctx v e]] := by
  induction l generalizing st with
  | nil => cases hc
  | cons q t ih =>
    simp only [List.foldl_cons]
    by_cases ht : p ∈ t
    · exact ih _ ht
    · have hq : q = p := by
        rcases List.mem_cons.mp hc with h | h
        · exact h.symm
        · exact absurd h ht
      subst hq
      rw [foldPaths_getKey_preserve ctx lt e t _ q (fun hp => absurd hp ht)]
      rw [applyEventPath_single_eq ctx lt e st q v hs hb hex]
      exact getKey_setKey_self st.1 q _

theorem applyEvent_single_getKey (ctx : StreamCtx) (lt : Option Time)
    (st : PlotDataByPath × Bool) (e : MessageEvent) (p : String)
    (hs : ctx.showSingleCurrentMessage = true) :
    getKey (applyEvent ctx lt st e).1 p
      = if matchesPath ctx p e = true then some [[extractedItem ctx p e]]
        else getKey st.1 p := by
  unfold applyEvent
  cases hl : getKey ctx.topicToPaths e.topic with
  | none =>
    have hm : matchesPath ctx p e = false := by
      unfold matchesPath
      rw [hl]
      simp
    rw [hm]
    simp
  | some l =>
    by_cases hm : matchesPath ctx p e = true
    · have hm' := hm
      unfold matchesPath at hm'
      rw [hl] at hm'
      simp only [Bool.and_eq_true, Bool.not_eq_true'] at hm'
      obtain ⟨⟨hc, hb⟩, hsome⟩ := hm'
      obtain ⟨v, hv⟩ := Option.isSome_iff_exists.mp hsome
      rw [hm, if_pos rfl]
      rw [foldPaths_single_getKey ctx lt e l st p v hs (by rw [hb]; simp) hv
        (by simpa using hc)]
      unfold extractedItem
      rw [hv]
      rfl
    · rw [if_neg hm]
      refine foldPaths_getKey_preserve ctx lt e l st p (fun hp => ?_)
      by_cases hbb : ctx.blockPathsMemo.contains p = true
      · exact Or.inl hbb
      · cases hex : ctx.cachedGetMessagePathDataItems p e with
        | none => exact Or.inr hex
        | some v =>
          exfalso
          apply hm
          unfold matchesPath
          rw [hl, hex]
          simp only [Bool.and_eq_true, Bool.not_eq_true']
          refine ⟨⟨by simpa using hp, by simpa using hbb⟩, rfl⟩

theorem foldEvents_single_getKey (ctx : StreamCtx) (lt : Option Time)
    (evs : List MessageEvent) (st : PlotDataByPath × Bool) (p : String)
    (hs : ctx.showSingleCurrentMessage = true) :
    getKey ((evs.foldl (applyEvent ctx lt) st).1) p
      = match (evs.filter (matchesPath ctx p)).getLast? with
        | some e => some [[extractedItem ctx p e]]
        | none => getKey st.1 p := by
  induction evs generalizing st with
  | nil => simp
  | cons e t ih =>
    simp only [List.foldl_cons]
    by_cases hm : matchesPath ctx p e = true
    · rw [List.filter_cons_of_pos hm]
      rw [ih _]
      cases hft : t.filter (matchesPath ctx p) with
      | nil =>
        simp only [List.getLast?_singleton]
        rw [applyEvent_single_getKey ctx lt st e p hs, if_pos hm]
        rfl
      | cons x xs =>
        rw [List.getLast?_cons_cons]
        cases hxl : (x :: xs).getLast? with
        | none => simp at hxl
        | some y => rfl
    · rw [List.filter_cons_of_neg (by simpa using hm)]
      rw [ih _]
      have hst : getKey (applyEvent ctx lt st e).1 p = getKey st.1 p := by
        rw [applyEvent_single_getKey ctx lt st e p hs, if_neg hm]
      cases (t.filter (matchesPath ctx p)).getLast? with
      | none => exact hst
      | some e' => rfl

theorem addMessagesCore_single_getKey (ctx : StreamCtx) (acc : PlotDataByPath)
    (evs : List MessageEvent) (p : String)
    (hs : ctx.showSingleCurrentMessage = true) :
    getKey (addMessagesCore ctx acc evs).1 p
      = match (evs.filter (matchesPath ctx p)).getLast? with
        | some e => some [[extractedItem ctx p e]]
        | none => getKey acc p := by
  unfold addMessagesCore
  exact foldEvents_single_getKey ctx _ evs (acc, false) p hs

theorem toSec_subtractTimes (t s : Time) :
    toSec (subtractTimes t s) = toSec t - toSec s := by
  unfold toSec subtractTimes
  push_cast
  ring

theorem getKey_none_of_not_mem_keys (m : List (String × α)) (k : String)
    (h : k ∉ m.map Prod.fst) : getKey m k = none := by
  induction m with
  | nil => rfl
  | cons e t ih =>
    simp only [List.map_cons, List.mem_cons, not_or] at h
    rw [getKey_cons, if_neg (fun he => h.1 he.symm)]
    exact ih h.2

theorem mem_keys_of_getKey_some (m : List (String × α)) (k : String) (v : α)
    (h : getKey m k = some v) : k ∈ m.map Prod.fst := by
  induction m with
  | nil => cases h
  | cons e t ih =>
    rw [getKey_cons] at h
    by_cases he : e.1 = k
    · simp [he]
    · rw [if_neg he] at h
      simp only [List.map_cons, List.mem_cons]
      exact Or.inr (ih h)

theorem mem_setKey (m : List (String × α)) (k : String) (v : α) (e : String × α)
    (he : e ∈ setKey m k v) : e = (k, v) ∨ e ∈ m := by
  unfold setKey at he
  by_cases h : hasKey m k
  · rw [if_pos h] at he
    obtain ⟨a, ha, hae⟩ := List.mem_map.mp he
    by_cases hak : a.1 = k
    · rw [if_pos hak] at hae
      exact Or.inl hae.symm
    · rw [if_neg hak] at hae
      exact Or.inr (hae ▸ ha)
  · rw [if_neg h] at he
    rcases List.mem_append.mp he with h1 | h1
    · exact Or.inr h1
    · exact Or.inl (List.mem_singleton.mp h1)

theorem getKey_spreadMerge (a b : List (String × α)) (k : String)
    (hnd : (b.map Prod.fst).Nodup) :
    getKey (spreadMerge a b) k = (getKey b k).or (getKey a k) := by
  induction b generalizing a with
  | nil => simp [spreadMerge, getKey]
  | cons e t ih =>
    simp only [List.map_cons, List.nodup_cons] at hnd
    obtain ⟨hke, hnt⟩ := hnd
    have hstep : spreadMerge a (e :: t) = spreadMerge (setKey a e.1 e.2) t := rfl
    rw [hstep, ih _ hnt]
    by_cases hk : e.1 = k
    · subst hk
      rw [getKey_none_of_not_mem_keys t e.1 hke]
      rw [getKey_setKey_self a e.1 e.2]
      rw [getKey_cons, if_pos rfl]
      rfl
    · rw [getKey_setKey_ne a e.1 k e.2 (fun hkk => hk hkk.symm)]
      rw [getKey_cons, if_neg hk]

theorem restore_fold_mem {P : String × List (List PlotDataItem) → Prop}
    (prev : PlotDataByPath) (paths : List String) (updated : PlotDataByPath)
    (h : ∀ e ∈ updated, P e)
    (hP : ∀ q ∈ paths, ∀ pd, getKey prev q = some pd → P (q, pd)) :
    ∀ e ∈ paths.foldl
      (fun updated path =>
        match getKey prev path with
        | some plotData => setKey updated path plotData
        | none => updated) updated, P e := by
  induction paths generalizing updated with
  | nil => exact h
  | cons q t ih =>
    simp only [List.foldl_cons]
    refine ih _ ?_ (fun r hr pd hpd => hP r (List.mem_cons_of_mem q hr) pd hpd)
    intro e he
    cases hq : getKey prev q with
    | none =>
      rw [hq] at he
      exact h e he
    | some pd =>
      rw [hq] at he
      rcases mem_setKey updated q pd e he with h1 | h1
      · exact h1 ▸ hP q (List.mem_cons_self q t) pd hq
      · exact h e h1

theorem restore_fold_getKey (prev : PlotDataByPath) (paths : List String)
    (updated : PlotDataByPath) (p : String) :
    getKey (paths.foldl
      (fun updated path =>
        match getKey prev path with
        | some plotData => setKey updated path plotData
        | none => updated) updated) p
      = if p ∈ paths ∧ (getKey prev p).isSome then getKey prev p
        else getKey updated p := by
  induction paths generalizing updated with
  | nil => simp
  | cons q t ih =>
    simp only [List.foldl_cons, ih]
    by_cases hq : q = p
    · subst hq
      cases hpv : getKey prev q with
      | none => simp [hpv]
      | some pd =>
        by_cases ht : q ∈ t
        · simp [hpv, ht]
        · simp only [hpv, List.mem_cons, true_or, Option.isSome_some, and_true, if_true,
            ht, false_and, if_false]
          rw [getKey_setKey_self updated q pd]
    · have hmem : (p ∈ q :: t ∧ (getKey prev p).isSome = true)
          ↔ p ∈ t ∧ (getKey prev p).isSome = true := by
        constructor
        · rintro ⟨h1, h2⟩
          rcases List.mem_cons.mp h1 with h1 | h1
          · exact absurd h1.symm hq
          · exact ⟨h1, h2⟩
        · rintro ⟨h1, h2⟩
          exact ⟨List.mem_cons_of_mem q h1, h2⟩
      by_cases hc : p ∈ t ∧ (getKey prev p).isSome = true
      · rw [if_pos hc, if_pos (hmem.mpr hc)]
      · rw [if_neg hc, if_neg (fun hh => hc (hmem.mp hh))]
        cases hpv : getKey prev q with
        | none => rfl
        | some pd => exact getKey_setKey_ne updated q p pd (fun hh => hq hh.symm)

theorem topicToPaths_fold_getKey (parseRosPath : String → Option String)
    (paths : List String) (out : List (String × List String)) (t : String) :
    getKey (paths.foldl
      (fun out path =>
        match parseRosPath path with
        | none => out
        | some topicName =>
          setKey out topicName ((getKey out topicName).getD [] ++ [path])) out) t
      = if paths.filter (fun q => parseRosPath q == some t) = [] then getKey out t
        else some ((getKey out t).getD []
          ++ paths.filter (fun q => parseRosPath q == some t)) := by
  induction paths generalizing out with
  | nil => simp
  | cons q rest ih =>
    simp only [List.foldl_cons, ih]
    cases hp : parseRosPath q with
    | none =>
      have hpred : (parseRosPath q == some t) = false := by simp [hp]
      simp only [List.filter_cons, hpred, Bool.false_eq_true, if_false]
    | some t' =>
      by_cases htt : t' = t
      · subst htt
        have hpred : (parseRosPath q == some t') = true := by simp [hp]
        simp only [List.filter_cons, hpred, if_true]
        rw [getKey_setKey_self out t' _]
        cases hfr : rest.filter (fun r => parseRosPath r == some t') with
        | nil => simp
        | cons x xs => simp [List.append_assoc]
      · have hpred : (parseRosPath q == some t) = false := by simp [hp, htt]
        simp only [List.filter_cons, hpred, Bool.false_eq_true, if_false]
        rw [getKey_setKey_ne out t' t _ (fun hh => htt hh.symm)]

theorem filter_keep_iff (l : List PlotDataItem) (c : ℚ) :
    l.filter (fun item => !(toSec item.receiveTime < c))
      = l.filter (fun item => decide (c ≤ toSec item.receiveTime)) := by
  apply List.filter_congr
  intro x hx
  rw [← decide_not]
  exact decide_eq_decide.mpr not_lt

theorem applyEventPath_following_eq (ctx : StreamCtx) (lastTime : Time)
    (e : MessageEvent) (st : PlotDataByPath × Bool) (p : String) (v : Value) (W : ℚ)
    (hs : ctx.showSingleCurrentMessage = false)
    (hf : ctx.followingView = some (ChartDefaultView.following W))
    (hb : ¬ ctx.blockPathsMemo.contains p = true)
    (hex : ctx.cachedGetMessagePathDataItems p e = some v) :
    applyEventPath ctx (some lastTime) e st p
      = (setKey st.1 p (setHead ((getKey st.1 p).getD [[]])
          ((((getKey st.1 p).getD [[]]).headD [] ++ [mkPlotDataItem ctx v e]).filter
            (fun item => !(toSec item.receiveTime < toSec lastTime - W)))), true) := by
  unfold applyEventPath
  rw [if_neg hb]
  simp only [hex]
  rw [if_neg (by simp [hs]), hf]

/-- C1: the Block Accumulator obeys the segment rule per path: when the
processed block's index is exactly one greater than the last block index
recorded for the path, the block's samples extend the path's last open
range in place; otherwise a copy of the block's samples starts a new
range. Consequently `getBlockItemsByPath` on blocks
[B0(P: s1,s2), B1(no P), B2(P: s3)] yields the two segments [s1,s2] and
[s3] for P, and on [B0(P: s1), B1(P: s2)] the single segment [s1,s2]. -/
theorem c1_block_segment_rule (i : Int) (s : BlockAccState) (path : String)
    (items : List (List PlotDataItem)) (ps : List PlotDataItem)
    (ts : Msg → Option Time) (md1 md2 md3 : MessageAndData) :
    (getKey s.lastBlockIndexForPath path = some (i - 1) → items.head? = some ps →
      (processBlockEntry i s (path, items)).ret
        = setKey s.ret path (extendLast ((getKey s.ret path).getD []) ps))
    ∧ (¬ getKey s.lastBlockIndexForPath path = some (i - 1) →
        items.head? = some ps →
      (processBlockEntry i s (path, items)).ret
        = setKey s.ret path (((getKey s.ret path).getD []) ++ [ps]))
    ∧ getBlockItemsByPath ts
        (fun b => if b = 0 then [("P", [md1, md2])]
          else if b = 2 then [("P", [md3])] else [])
        [0, 1, 2]
      = [("P", [[mkBlockItem ts md1, mkBlockItem ts md2], [mkBlockItem ts md3]])]
    ∧ getBlockItemsByPath ts
        (fun b => if b = 0 then [("P", [md1])]
          else if b = 1 then [("P", [md2])] else [])
        [0, 1]
      = [("P", [[mkBlockItem ts md1, mkBlockItem ts md2]])] := by
  refine ⟨?_, ?_, rfl, rfl⟩
  · intro hlast hhead
    unfold processBlockEntry
    dsimp only
    rw [if_pos hlast, hhead]
  · intro hlast hhead
    unfold processBlockEntry
    dsimp only
    rw [if_neg hlast, hhead]

theorem c1_block_segment_rule_witness :
    (processBlockEntry 1 ⟨[("P", [[itemAt 1 0]])], [("P", 0)]⟩ ("P", [[itemAt 2 1]])).ret
      = setKey [("P", [[itemAt 1 0]])] "P" (extendLast [[itemAt 1 0]] [itemAt 2 1]) :=
  (c1_block_segment_rule 1 ⟨[("P", [[itemAt 1 0]])], [("P", 0)]⟩ "P" [[itemAt 2 1]]
    [itemAt 2 1] (fun _ => none) ⟨⟨"T", ⟨0, 0⟩, 0⟩, 0⟩ ⟨⟨"T", ⟨0, 0⟩, 0⟩, 0⟩
    ⟨⟨"T", ⟨0, 0⟩, 0⟩, 0⟩).1 (by decide) rfl

/-- C2: with the view mode following of width `W` and `T` the batch's
last event receive time, after `addMessages` appends a sample for a path
in normal mode, range 0 of that path keeps exactly the samples (old ones
plus the appended one) whose receive time is at least `T − W`; samples
strictly older are dropped. Concretely, with `W = 5` and existing
samples at t = 0..10, appending a sample at t = 11 leaves exactly the
samples at t = 6..11. -/
theorem c2_following_window_trim (ctx : StreamCtx) (acc : PlotDataByPath)
    (e : MessageEvent) (p : String) (pdp : List (List PlotDataItem)) (v : Value)
    (W : ℚ)
    (hs : ctx.showSingleCurrentMessage = false)
    (hf : ctx.followingView = some (ChartDefaultView.following W))
    (htp : getKey ctx.topicToPaths e.topic = some [p])
    (hb : ¬ ctx.blockPathsMemo.contains p = true)
    (hex : ctx.cachedGetMessagePathDataItems p e = some v)
    (hacc : getKey acc p = some pdp) :
    getKey (addMessages ctx acc [e]) p
      = some (setHead pdp ((pdp.headD [] ++ [mkPlotDataItem ctx v e]).filter
          (fun item => decide (toSec e.receiveTime - W ≤ toSec item.receiveTime))))
    ∧ addMessages ctxW5 accW5 [⟨"T", ⟨11, 0⟩, 99⟩]
        = [("p", [[itemAt 6 6, itemAt 7 7, itemAt 8 8, itemAt 9 9, itemAt 10 10,
            itemAt 99 11]])] := by
  constructor
  · rw [addMessages_getKey_eq_core]
    unfold addMessagesCore applyEvent
    simp only [List.getLast?_singleton, Option.map_some', List.foldl_cons,
      List.foldl_nil, htp]
    rw [applyEventPath_following_eq ctx e.receiveTime e (acc, false) p v W hs hf hb hex]
    simp only [getKey_setKey_self]
    have hfst : getKey ((acc, false) : PlotDataByPath × Bool).1 p = some pdp := hacc
    rw [hfst]
    simp only [Option.getD_some]
    rw [filter_keep_iff]
  · norm_num [addMessages, addMessagesCore, applyEvent, applyEventPath, getKey, setKey,
      hasKey, setHead, mkPlotDataItem, toSec, ctxW5, accW5, rangeW5, itemAt, List.filter]

theorem c2_following_window_trim_witness :
    getKey (addMessages ctxW5 accW5 [⟨"T", ⟨11, 0⟩, 99⟩]) "p"
      = some (setHead [rangeW5]
          ((([rangeW5] : List (List PlotDataItem)).headD []
              ++ [mkPlotDataItem ctxW5 99 ⟨"T", ⟨11, 0⟩, 99⟩]).filter
            (fun item => decide (toSec (⟨11, 0⟩ : Time) - 5 ≤ toSec item.receiveTime)))) :=
  (c2_following_window_trim ctxW5 accW5 ⟨"T", ⟨11, 0⟩, 99⟩ "p" [rangeW5] 99 5
    rfl rfl rfl (by decide) rfl rfl).1

/-- C3: the streaming reducer's `changed` flag is false exactly when
every event of the batch is filtered out (topic absent from the index,
every matched path block-covered, or extraction empty); when it is
false, the code path `return accumulated` is taken and the result is the
input object itself, with no write to any entry; when it is true, the
`return {...accumulated}` path is taken (the fresh shallow copy of the
final state, modelled by the `changed` flag of `addMessagesCore`). -/
theorem c3_referential_stability (ctx : StreamCtx) (acc : PlotDataByPath)
    (evs : List MessageEvent) :
    ((addMessagesCore ctx acc evs).2 = false ↔ ∀ e ∈ evs, eventSkipped ctx e)
    ∧ ((addMessagesCore ctx acc evs).2 = false → addMessages ctx acc evs = acc)
    ∧ ((addMessagesCore ctx acc evs).2 = false → (addMessagesCore ctx acc evs).1 = acc)
    ∧ ((addMessagesCore ctx acc evs).2 = true →
        addMessages ctx acc evs = (addMessagesCore ctx acc evs).1) := by
  refine ⟨addMessagesCore_snd_false_iff ctx acc evs, ?_,
    addMessagesCore_fst_of_snd_false ctx acc evs, ?_⟩
  · intro h
    simp only [addMessages, h, Bool.false_eq_true, if_false]
  · intro h
    simp only [addMessages, h, if_true]

theorem c3_referential_stability_witness :
    addMessages ctxW5 accW5 [⟨"U", ⟨0, 0⟩, 0⟩] = accW5 :=
  (c3_referential_stability ctxW5 accW5 [⟨"U", ⟨0, 0⟩, 0⟩]).2.1 (by decide)

/-- C4: block precedence. When a path has an entry in the block-derived
data (and the reducer's block-path list is the keys of that data), the
reducer leaves the path's stream entry untouched by any batch, and the
spread merge `{...stream, ...blocks}` maps the path to its block entry;
a path with no block entry is served by the stream view in the merge. -/
theorem c4_block_precedence (ctx : StreamCtx) (acc : PlotDataByPath)
    (evs : List MessageEvent) (p : String) (v : List (List PlotDataItem))
    (stream blockData : PlotDataByPath)
    (hbp : ctx.blockPathsMemo = blockData.map Prod.fst)
    (hnd : (blockData.map Prod.fst).Nodup) :
    (getKey blockData p = some v →
      getKey (addMessages ctx acc evs) p = getKey acc p
      ∧ getKey (spreadMerge stream blockData) p = some v)
    ∧ (getKey blockData p = none →
      getKey (spreadMerge stream blockData) p = getKey stream p) := by
  constructor
  · intro hpv
    constructor
    · rw [addMessages_getKey_eq_core]
      unfold addMessagesCore
      refine foldEvents_getKey_preserve ctx _ evs (acc, false) p
        (fun e he l hl hp => Or.inl ?_)
      rw [hbp]
      exact List.elem_iff.mpr (mem_keys_of_getKey_some blockData p v hpv)
    · rw [getKey_spreadMerge stream blockData p hnd, hpv]
      rfl
  · intro hpn
    rw [getKey_spreadMerge stream blockData p hnd, hpn]
    rfl

theorem c4_block_precedence_witness :
    getKey (addMessages
        { ctxW5 with blockPathsMemo := ["p"] } accW5 [⟨"T", ⟨11, 0⟩, 99⟩]) "p"
      = getKey accW5 "p"
    ∧ getKey (spreadMerge [("p", [rangeW5])] [("p", [[itemAt 7 7]])]) "p"
      = some [[itemAt 7 7]] :=
  (c4_block_precedence { ctxW5 with blockPathsMemo := ["p"] } accW5
    [⟨"T", ⟨11, 0⟩, 99⟩] "p" [[itemAt 7 7]] [("p", [rangeW5])]
    [("p", [[itemAt 7 7]])] rfl (by decide)).1 rfl

/-- C9: frame property of `addMessages`: a path that no event of the
batch changes (for every event, either the path is not listed for the
event's topic, or it is block-covered, or extraction yields nothing)
maps to the very same range-list value in the result as in the input,
even when other paths changed. -/
theorem c9_untouched_paths_preserved (ctx : StreamCtx) (acc : PlotDataByPath)
    (evs : List MessageEvent) (p : String)
    (h : ∀ e ∈ evs, ∀ l, getKey ctx.topicToPaths e.topic = some l → p ∈ l →
      pathSkipped ctx p e) :
    getKey (addMessages ctx acc evs) p = getKey acc p := by
  rw [addMessages_getKey_eq_core]
  unfold addMessagesCore
  exact foldEvents_getKey_preserve ctx _ evs (acc, false) p h

theorem c9_untouched_paths_preserved_witness :
    getKey (addMessages
        { ctxW5 with topicToPaths := [("T", ["p"]), ("U", ["q"])] }
        [("q", [[itemAt 3 3]])] [⟨"T", ⟨11, 0⟩, 99⟩]) "q"
      = some [[itemAt 3 3]] := by
  rw [c9_untouched_paths_preserved
    { ctxW5 with topicToPaths := [("T", ["p"]), ("U", ["q"])] }
    [("q", [[itemAt 3 3]])] [⟨"T", ⟨11, 0⟩, 99⟩] "q" ?_]
  · rfl
  · intro e he l hl hq
    obtain rfl := List.mem_singleton.mp he
    have hl' : some ["p"] = some l := by
      rw [← hl]
      rfl
    injection hl' with hl''
    subst hl''
    simp at hq

/-- C5: in single-current-message mode block accumulation returns the
empty mapping, and after a batch every path whose topic matched at least
one event with a successful extraction (and which is not block-covered)
holds exactly one single-element range containing the most recent such
sample, regardless of how many events the batch held. -/
theorem c5_single_current_message (ts : Msg → Option Time)
    (dec : Block → MessageDataItemsByPath) (blocks : List Block)
    (ctx : StreamCtx) (acc : PlotDataByPath) (evs : List MessageEvent)
    (p : String) (e : MessageEvent)
    (hs : ctx.showSingleCurrentMessage = true) :
    plotDataForBlocks true ts dec blocks = []
    ∧ ((evs.filter (matchesPath ctx p)).getLast? = some e →
        getKey (addMessages ctx acc evs) p = some [[extractedItem ctx p e]]) := by
  refine ⟨rfl, fun hlast => ?_⟩
  rw [addMessages_getKey_eq_core, addMessagesCore_single_getKey ctx acc evs p hs, hlast]

theorem c5_single_current_message_witness :
    getKey (addMessages { ctxW5 with showSingleCurrentMessage := true } []
        [⟨"T", ⟨1, 0⟩, 10⟩, ⟨"T", ⟨2, 0⟩, 20⟩, ⟨"T", ⟨3, 0⟩, 30⟩]) "p"
      = some [[extractedItem { ctxW5 with showSingleCurrentMessage := true } "p"
          ⟨"T", ⟨3, 0⟩, 30⟩]] :=
  (c5_single_current_message (fun _ => none) (fun _ => []) []
    { ctxW5 with showSingleCurrentMessage := true } []
    [⟨"T", ⟨1, 0⟩, 10⟩, ⟨"T", ⟨2, 0⟩, 20⟩, ⟨"T", ⟨3, 0⟩, 30⟩] "p"
    ⟨"T", ⟨3, 0⟩, 30⟩ rfl).2 (by decide)

/-- C10: in single-current-message mode an event whose extraction fails
for a path leaves that path's entry untouched; if every event of the
batch fails to extract for the path, the entry (e.g. a previously-kept
single sample) is retained unchanged; in general the kept sample comes
from the last event with a successful extraction, which need not be the
batch's last event. -/
theorem c10_single_mode_extraction_failure (ctx : StreamCtx)
    (acc : PlotDataByPath) (evs : List MessageEvent) (p : String)
    (e : MessageEvent) (hs : ctx.showSingleCurrentMessage = true) :
    ((∀ e' ∈ evs, ctx.cachedGetMessagePathDataItems p e' = none) →
      getKey (addMessages ctx acc evs) p = getKey acc p)
    ∧ ((evs.filter (matchesPath ctx p)).getLast? = some e →
      getKey (addMessages ctx acc evs) p = some [[extractedItem ctx p e]]) := by
  constructor
  · intro hall
    rw [addMessages_getKey_eq_core, addMessagesCore_single_getKey ctx acc evs p hs]
    have hnil : evs.filter (matchesPath ctx p) = [] := by
      rw [List.filter_eq_nil_iff]
      intro e' he'
      unfold matchesPath
      rw [hall e' he']
      simp
    rw [hnil]
    rfl
  · intro hlast
    rw [addMessages_getKey_eq_core, addMessagesCore_single_getKey ctx acc evs p hs,
      hlast]

theorem c10_single_mode_extraction_failure_witness :
    getKey (addMessages ctxFail [("p", [[itemAt 7 7]])] [⟨"T", ⟨9, 0⟩, 0⟩]) "p"
      = getKey [("p", [[itemAt 7 7]])] "p"
    ∧ getKey (addMessages ctxFail []
        [⟨"T", ⟨1, 0⟩, 10⟩, ⟨"T", ⟨2, 0⟩, 0⟩]) "p"
      = some [[extractedItem ctxFail "p" ⟨"T", ⟨1, 0⟩, 10⟩]] :=
  ⟨(c10_single_mode_extraction_failure ctxFail [("p", [[itemAt 7 7]])]
      [⟨"T", ⟨9, 0⟩, 0⟩] "p" ⟨"T", ⟨9, 0⟩, 0⟩ rfl).1 (by decide),
    (c10_single_mode_extraction_failure ctxFail []
      [⟨"T", ⟨1, 0⟩, 10⟩, ⟨"T", ⟨2, 0⟩, 0⟩] "p" ⟨"T", ⟨1, 0⟩, 10⟩ rfl).2 (by decide)⟩

/-- C6: `restore` returns the mapping whose entries are exactly the
still-requested paths that had data in the previous state, each bound to
its previous value; entries for paths no longer requested are gone, and
an undefined previous state restores to the empty mapping. -/
theorem c6_restore_filters_paths (allPaths : List String) (prev : PlotDataByPath)
    (p : String) :
    restore allPaths none = []
    ∧ getKey (restore allPaths (some prev)) p
        = (if p ∈ allPaths then getKey prev p else none)
    ∧ (∀ e ∈ restore allPaths (some prev),
        e.1 ∈ allPaths ∧ getKey prev e.1 = some e.2) := by
  refine ⟨rfl, ?_, ?_⟩
  · unfold restore
    rw [restore_fold_getKey prev allPaths [] p]
    by_cases hp : p ∈ allPaths
    · by_cases hsome : (getKey prev p).isSome = true
      · rw [if_pos ⟨hp, hsome⟩, if_pos hp]
      · have hnone : getKey prev p = none := by
          cases hpv : getKey prev p with
          | none => rfl
          | some pd => rw [hpv] at hsome; simp at hsome
        rw [if_neg (fun hh => hsome hh.2), if_pos hp, hnone]
        rfl
    · rw [if_neg (fun hh => hp hh.1), if_neg hp]
      rfl
  · unfold restore
    exact restore_fold_mem prev allPaths []
      (by intro e he; cases he)
      (fun q hq pd hpd => ⟨hq, hpd⟩)

theorem c6_restore_filters_paths_witness :
    getKey (restore ["A"] (some [("A", [[itemAt 1 0]]), ("B", [[itemAt 2 0]])])) "A"
      = some [[itemAt 1 0]]
    ∧ getKey (restore ["A"] (some [("A", [[itemAt 1 0]]), ("B", [[itemAt 2 0]])])) "B"
      = none := by
  constructor
  · rw [(c6_restore_filters_paths ["A"]
      [("A", [[itemAt 1 0]]), ("B", [[itemAt 2 0]])] "A").2.1]
    decide
  · rw [(c6_restore_filters_paths ["A"]
      [("A", [[itemAt 1 0]]), ("B", [[itemAt 2 0]])] "B").2.1]
    decide

/-- C7: the published default view is the following view of the
configured width whenever the width string is present and its numeric
value is positive; otherwise the fixed view `[0, endTime − startTime]`
when the x-axis mode is timestamp and both times are known; otherwise
undefined. A missing, non-numeric (`NaN`) or non-positive width
disables following mode. -/
theorem c7_default_view_selection (plus : String → Option ℚ)
    (followingViewWidth : Option String) (s : String) (x : ℚ) (xAxisVal : XAxisVal)
    (startTime endTime : Option Time) (st et : Time) :
    (followingViewWidth = some s → plus s = some x → 0 < x →
      defaultView plus followingViewWidth xAxisVal startTime endTime
        = some (ChartDefaultView.following x))
    ∧ (followingView plus followingViewWidth = none →
        defaultView plus followingViewWidth XAxisVal.timestamp (some st) (some et)
          = some (ChartDefaultView.fixed 0 (toSec et - toSec st)))
    ∧ (followingView plus followingViewWidth = none → xAxisVal ≠ XAxisVal.timestamp →
        defaultView plus followingViewWidth xAxisVal startTime endTime = none)
    ∧ (followingView plus followingViewWidth = none → startTime = none →
        defaultView plus followingViewWidth xAxisVal startTime endTime = none)
    ∧ (followingView plus followingViewWidth = none → endTime = none →
        defaultView plus followingViewWidth xAxisVal startTime endTime = none)
    ∧ (followingViewWidth = none → followingView plus followingViewWidth = none)
    ∧ (followingViewWidth = some s → plus s = none →
        followingView plus followingViewWidth = none)
    ∧ (followingViewWidth = some s → plus s = some x → x ≤ 0 →
        followingView plus followingViewWidth = none) := by
  refine ⟨?_, ?_, ?_, ?_, ?_, ?_, ?_, ?_⟩
  · intro hw hp hx
    subst hw
    unfold defaultView followingView
    simp only [hp, if_pos hx]
  · intro hf
    unfold defaultView
    rw [hf]
    unfold fixedView timeSincePreloadedStart
    simp [toSec_subtractTimes]
  · intro hf hxv
    unfold defaultView
    rw [hf]
    unfold fixedView
    rw [if_neg (fun hh => hxv hh.1)]
  · intro hf hst
    subst hst
    unfold defaultView
    rw [hf]
    unfold fixedView
    rw [if_neg (fun hh => by simpa using hh.2.1)]
  · intro hf het
    subst het
    unfold defaultView
    rw [hf]
    unfold fixedView timeSincePreloadedStart
    by_cases hxv : xAxisVal = XAxisVal.timestamp
    · subst hxv
      cases startTime with
      | none => simp
      | some st' => simp
    · simp [hxv]
  · intro hw
    subst hw
    rfl
  · intro hw hp
    subst hw
    unfold followingView
    dsimp only
    rw [hp]
  · intro hw hp hx
    subst hw
    unfold followingView
    dsimp only
    rw [hp]
    dsimp only
    rw [if_neg (not_lt.mpr hx)]

theorem c7_default_view_selection_witness :
    defaultView plusEx (some "5") XAxisVal.timestamp (some ⟨1, 0⟩) (some ⟨4, 0⟩)
      = some (ChartDefaultView.following 5)
    ∧ defaultView plusEx (some "no") XAxisVal.timestamp (some ⟨1, 0⟩) (some ⟨4, 0⟩)
      = some (ChartDefaultView.fixed 0 (toSec ⟨4, 0⟩ - toSec ⟨1, 0⟩)) :=
  ⟨(c7_default_view_selection plusEx (some "5") "5" 5 XAxisVal.timestamp
      (some ⟨1, 0⟩) (some ⟨4, 0⟩) ⟨1, 0⟩ ⟨4, 0⟩).1 rfl (by norm_num [plusEx])
      (by norm_num),
    (c7_default_view_selection plusEx (some "no") "no" 5 XAxisVal.timestamp
      (some ⟨1, 0⟩) (some ⟨4, 0⟩) ⟨1, 0⟩ ⟨4, 0⟩).2.1 rfl⟩

/-- C8: the topic-to-paths index lists, under each topic name, exactly
the configured paths that parse to that topic, in configuration order;
a path whose expression fails to parse appears in no topic's list, and
index construction is total (no error). -/
theorem c8_unparseable_paths_excluded (parseRosPath : String → Option String)
    (allPaths : List String) (t p : String) :
    getKey (topicToPaths parseRosPath allPaths) t
      = (if allPaths.filter (fun q => parseRosPath q == some t) = [] then none
         else some (allPaths.filter (fun q => parseRosPath q == some t)))
    ∧ (parseRosPath p = none →
        ∀ l, getKey (topicToPaths parseRosPath allPaths) t = some l → p ∉ l) := by
  have hmain : getKey (topicToPaths parseRosPath allPaths) t
      = (if allPaths.filter (fun q => parseRosPath q == some t) = [] then none
         else some (allPaths.filter (fun q => parseRosPath q == some t))) := by
    unfold topicToPaths
    rw [topicToPaths_fold_getKey parseRosPath allPaths [] t]
    cases hfl : allPaths.filter (fun q => parseRosPath q == some t) with
    | nil => simp [getKey]
    | cons x xs => simp [getKey]
  refine ⟨hmain, fun hp l hl hpl => ?_⟩
  rw [hmain] at hl
  by_cases hfl : allPaths.filter (fun q => parseRosPath q == some t) = []
  · rw [if_pos hfl] at hl
    cases hl
  · rw [if_neg hfl] at hl
    injection hl with hl'
    subst hl'
    have hpred := (List.mem_filter.mp hpl).2
    rw [hp] at hpred
    simp at hpred

theorem c8_unparseable_paths_excluded_witness :
    getKey (topicToPaths parseEx ["a1", "bad", "a2"]) "a" = some ["a1", "a2"]
    ∧ "bad" ∉ (["a1", "a2"] : List String) := by
  have h := c8_unparseable_paths_excluded parseEx ["a1", "bad", "a2"] "a" "bad"
  have hval : getKey (topicToPaths parseEx ["a1", "bad", "a2"]) "a"
      = some ["a1", "a2"] := by
    rw [h.1]
    decide
  exact ⟨hval, h.2 (by decide) ["a1", "a2"] hval⟩
